import Mathlib

/-
Verification development for the ns_trcd_analysis repository.

The repository sources available are src/ns_trcd_analysis/main.py (the CLI
commands) and src/ns_trcd_analysis/raw2hdf5.py (the ingestion routine).  The
fitting engine itself lives in the compute/core modules, which are not part of
the source tree; those parts are modelled from the specification (each such
definition carries a doc comment starting with "Modelled from the spec:").

Modelling conventions:
- time values, fit onsets and lifetimes are rationals (the comparisons the code
  performs on them are then decidable and executable);
- curve values are real numbers, and the exponential is the exact Real.exp;
- fallible steps return Except FitErr;
- arrays are lists aligned index-by-index with the time axis.
-/

namespace NsTrcd

/-- Error kinds of the fitting engine, as named in the spec (section 7). -/
inductive FitErr where
  | invalidParameter
  | underdetermined
  | singularBasis
deriving DecidableEq, Repr

/-- Modelled from the spec: the onset mask of the Decay Basis Builder (spec 4.1,
compute module not in src/) keeps the time points at or after the fit onset. -/
def maskAfter (onset : ℚ) (ts : List ℚ) : List ℚ :=
  ts.filter (fun t => decide (onset ≤ t))

/-- Modelled from the spec: restriction of a curve (aligned with the time axis)
to the masked region, "the after-onset subset consistently on both sides". -/
def maskCurve (onset : ℚ) (ts : List ℚ) (y : List ℝ) : List ℝ :=
  ((ts.zip y).filter (fun p => decide (onset ≤ p.1))).map Prod.snd

/-- Modelled from the spec: raw exponential decay curve over the full time axis,
value exp(-t/tau) at time t (spec 4.1). -/
noncomputable def decayCurve (τ : ℚ) (ts : List ℚ) : List ℝ :=
  ts.map (fun t : ℚ => Real.exp (-(t : ℝ) / (τ : ℝ)))

/-- Modelled from the spec: discrete convolution with an instrument response,
truncated to the length of the second argument (spec 4.1). -/
noncomputable def convTrunc (irf xs : List ℝ) : List ℝ :=
  (List.range xs.length).map
    (fun n => ((List.range (n + 1)).map (fun k => irf.getD k 0 * xs.getD (n - k) 0)).sum)

/-- Modelled from the spec: one un-masked basis column, optionally convolved
with the instrument response curve before masking. -/
noncomputable def basisColumnRaw (irf : Option (List ℝ)) (τ : ℚ) (ts : List ℚ) : List ℝ :=
  match irf with
  | none => decayCurve τ ts
  | some r => convTrunc r (decayCurve τ ts)

/-- Modelled from the spec: a Decay Basis column, restricted to the time points
at or after the fit onset. -/
noncomputable def basisColumn (irf : Option (List ℝ)) (τ : ℚ) (onset : ℚ) (ts : List ℚ) :
    List ℝ :=
  maskCurve onset ts (basisColumnRaw irf τ ts)

/-- Modelled from the spec: the columns of the Decay Basis, one per lifetime, in
lifetime order. -/
noncomputable def basisCols (irf : Option (List ℝ)) (taus : List ℚ) (onset : ℚ)
    (ts : List ℚ) : List (List ℝ) :=
  taus.map (fun τ => basisColumn irf τ onset ts)

/-- Modelled from the spec: the Decay Basis Builder; a zero or negative lifetime
is invalid input and fails with InvalidParameterError (spec 4.1). -/
noncomputable def buildBasis (irf : Option (List ℝ)) (taus : List ℚ) (onset : ℚ)
    (ts : List ℚ) : Except FitErr (List (List ℝ)) :=
  if taus.any (fun τ => decide (τ ≤ 0)) then .error .invalidParameter
  else .ok (basisCols irf taus onset ts)

/-- Modelled from the spec: the Per-Wavelength Linear Solver (spec 4.2).  The
numerical least-squares kernel is the external parameter solve; the solver
checks for the under-determined case (fewer masked points than lifetimes) and
fails with UnderdeterminedFitError before invoking the kernel. -/
def linSolve (solve : List (List ℝ) → List ℝ → List ℝ) (B : List (List ℝ)) (y : List ℝ) :
    Except FitErr (List ℝ) :=
  if y.length < B.length then .error .underdetermined else .ok (solve B y)

/-- Effectful map over a list in the Except monad; the first failure aborts. -/
def mapExcept (f : α → Except ε β) : List α → Except ε (List β)
  | [] => .ok []
  | a :: l =>
    match f a with
    | .error e => .error e
    | .ok b =>
      match mapExcept f l with
      | .error e => .error e
      | .ok bs => .ok (b :: bs)

/-- Modelled from the spec: the Local Fit Orchestrator (spec 4.3): build one
Decay Basis shared across wavelengths and apply the Linear Solver once per
wavelength curve, assembling the Amplitude Matrix rows in input order. -/
noncomputable def lfits (solve : List (List ℝ) → List ℝ → List ℝ) (curves : List (List ℝ))
    (ts : List ℚ) (onset : ℚ) (taus : List ℚ) (irf : Option (List ℝ)) :
    Except FitErr (List (List ℝ)) :=
  match buildBasis irf taus onset ts with
  | .error e => .error e
  | .ok B => mapExcept (fun y => linSolve solve B (maskCurve onset ts y)) curves

/-- A Bounded Lifetime: triple of lower bound, current value and upper bound. -/
structure BoundedLifetime where
  lower : ℚ
  lifetime : ℚ
  upper : ℚ
deriving DecidableEq, Repr

/-- Fallback Bounded Lifetime used only as a getD default. -/
def bl0 : BoundedLifetime := ⟨0, 0, 0⟩

/-- Modelled from the spec: compute.bounded_lifetimes_from_args (compute module
not in src/) turns the CLI triples (lower_bound, lifetime, upper_bound) into
Bounded Lifetimes, preserving order. -/
def bounded_lifetimes_from_args (args : List (ℚ × ℚ × ℚ)) : List BoundedLifetime :=
  args.map (fun a => ⟨a.1, a.2.1, a.2.2⟩)

/-- Modelled from the spec: compute.lfits_for_gfit runs the Local Fit
Orchestrator at the current values of the Bounded Lifetimes, no instrument
response. -/
noncomputable def lfits_for_gfit (solve : List (List ℝ) → List ℝ → List ℝ)
    (curves : List (List ℝ)) (ts : List ℚ) (onset : ℚ) (bls : List BoundedLifetime) :
    Except FitErr (List (List ℝ)) :=
  lfits solve curves ts onset (bls.map (fun b => b.lifetime)) none

/-- Clamp a value into the closed interval given by the bounds. -/
def clamp (lo hi x : ℚ) : ℚ := max lo (min x hi)

/-- Modelled from the spec: hard bound enforcement of the Global Optimizer
(spec 4.4): a proposed lifetime vector is clamped componentwise into the bound
intervals, so the objective is never evaluated outside them; the number of
lifetimes is fixed at the number of Bounded Lifetimes. -/
def clampVec : List BoundedLifetime → List ℚ → List ℚ
  | [], _ => []
  | b :: bs, [] => clamp b.lower b.upper b.lifetime :: clampVec bs []
  | b :: bs, x :: xs => clamp b.lower b.upper x :: clampVec bs xs

/-- Modelled from the spec: the trial lifetime vectors of the bounded nonlinear
search (spec 4.4).  The search strategy is the external parameter propose;
trial 0 is the vector of initial values, and every later trial is the clamped
proposal made from the previous trial. -/
def optimizerTrial (bls : List BoundedLifetime) (propose : ℕ → List ℚ → List ℚ) :
    ℕ → List ℚ
  | 0 => bls.map (fun b => b.lifetime)
  | n + 1 => clampVec bls (propose n (optimizerTrial bls propose n))

/-- Modelled from the spec: compute.global_fit (compute module not in src/):
bounded minimization over the shared lifetime vector; terminates after a given
number of trials with the refined lifetimes and the Amplitude Matrix recomputed
from them by the Local Fit Orchestrator.  The initial amplitude survey lfitAmps
is the optimizer starting information; the returned matrix is always the one
recomputed at the final lifetimes. -/
noncomputable def global_fit (solve : List (List ℝ) → List ℝ → List ℝ)
    (propose : ℕ → List ℚ → List ℚ) (steps : ℕ) (curves : List (List ℝ)) (ts : List ℚ)
    (onset : ℚ) (lfitAmps : List (List ℝ)) (bls : List BoundedLifetime) :
    Except FitErr (List (List ℝ) × List ℚ) :=
  match lfits solve curves ts onset (optimizerTrial bls propose steps) none with
  | .error e => .error e
  | .ok amps => .ok (amps, optimizerTrial bls propose steps)

/-- Embeds the global_fit command of src/ns_trcd_analysis/main.py (lines
678-696) with file output elided: build the Bounded Lifetimes from the CLI
triples, run the initial local fit survey, then the global fit. -/
noncomputable def global_fit_cmd (solve : List (List ℝ) → List ℝ → List ℝ)
    (propose : ℕ → List ℚ → List ℚ) (steps : ℕ) (curves : List (List ℝ)) (ts : List ℚ)
    (fit_after : ℚ) (args : List (ℚ × ℚ × ℚ)) : Except FitErr (List (List ℝ) × List ℚ) :=
  match lfits_for_gfit solve curves ts fit_after (bounded_lifetimes_from_args args) with
  | .error e => .error e
  | .ok lfitAmps =>
    global_fit solve propose steps curves ts fit_after lfitAmps
      (bounded_lifetimes_from_args args)

/-- Embeds the double_fit command of src/ns_trcd_analysis/main.py (lines
707-728) with file output elided: the dA and dCD curve collections are
concatenated (np.hstack, dA block first) and fit jointly with shared
lifetimes. -/
noncomputable def double_fit_cmd (solve : List (List ℝ) → List ℝ → List ℝ)
    (propose : ℕ → List ℚ → List ℚ) (steps : ℕ) (da_curves cd_curves : List (List ℝ))
    (ts : List ℚ) (fit_after : ℚ) (args : List (ℚ × ℚ × ℚ)) :
    Except FitErr (List (List ℝ) × List ℚ) :=
  match lfits_for_gfit solve (da_curves ++ cd_curves) ts fit_after
      (bounded_lifetimes_from_args args) with
  | .error e => .error e
  | .ok lfitAmps =>
    global_fit solve propose steps (da_curves ++ cd_curves) ts fit_after lfitAmps
      (bounded_lifetimes_from_args args)

/-- Reindexing of a list of rows by a list of indices; applied with a
permutation of the row indices it permutes the rows. -/
def permuteRows (p : List ℕ) (l : List α) : List α :=
  p.filterMap (fun i => l[i]?)

/-- Sum of squared residuals between two aligned value lists. -/
def ssr (y f : List ℝ) : ℝ :=
  (List.zipWith (fun a b => (a - b) ^ 2) y f).sum

/-- Modelled from the spec: Curve Reconstruction over the masked region (spec
4.5): point i of the reconstructed curve is the amplitude-weighted sum of the
basis columns at point i. -/
def lincomb (amps : List ℝ) (cols : List (List ℝ)) (n : ℕ) : List ℝ :=
  (List.range n).map (fun i => ((amps.zip cols).map (fun p => p.1 * p.2.getD i 0)).sum)

/-- Python int() on a rational: truncation toward zero. -/
def pyInt (q : ℚ) : ℤ := if 0 ≤ q then ⌊q⌋ else -⌊-q⌋

/-- Modelled from the spec: core.index_for_wavelength (core module not in
src/) returns the index of the stored integer wavelength label equal to the
requested value, if any. -/
def index_for_wavelength (wls : List ℤ) (target : ℤ) : Option ℕ :=
  wls.findIdx? (fun w => decide (w = target))

/-- Embeds the wavelength lookup of the export command
(src/ns_trcd_analysis/main.py line 203): the user-supplied fractional
wavelength is scaled by 100 and truncated before matching the stored labels. -/
def exportLookup (wls : List ℤ) (wavelength : ℚ) : Option ℕ :=
  index_for_wavelength wls (pyInt (wavelength * 100))

/-- Embeds the wavelength lookup of the shotslice command
(src/ns_trcd_analysis/main.py line 486): the user-supplied integer is matched
against the stored labels directly, with no scaling. -/
def shotsliceLookup (wls : List ℤ) (wavelength : ℤ) : Option ℕ :=
  index_for_wavelength wls wavelength

/-- Parameter list of raw2hdf5.ingest as declared in
src/ns_trcd_analysis/raw2hdf5.py line 9: (input_dir, output_file_path,
incremental), no defaults. -/
def ingestParams : List String := ["input_dir", "output_file_path", "incremental"]

/-- Python call binding: npos positional arguments and the named keyword
arguments bind against the parameter list iff there are enough parameters for
the positionals, every keyword names a parameter not already bound
positionally, and every remaining parameter is bound by some keyword (the
callee has no defaults).  Any violation raises TypeError at the call site,
before the callee body runs. -/
def pyBindOk (params : List String) (npos : ℕ) (kwargs : List String) : Bool :=
  decide (npos ≤ params.length)
    && kwargs.all (fun k => (params.drop npos).contains k)
    && (params.drop npos).all (fun q => kwargs.contains q)

/-- Outcome of running the assemble command: either a TypeError at the ingest
call site, or a completed ingestion listing the HDF5 datasets written. -/
inductive AssembleOutcome where
  | typeError
  | ingested (writes : List String)
deriving DecidableEq, Repr

/-- Embeds the assemble command of src/ns_trcd_analysis/main.py (lines 31-51):
it always calls raw2hdf5.ingest with two positional arguments and the keyword
argument dark_signals_file.  The input paths do not influence the binding. -/
def assembleCmd (input_dir output_file : String) (dark : Option String) : AssembleOutcome :=
  if pyBindOk ingestParams 2 ["dark_signals_file"] then .ingested ["data", "wavelengths"]
  else .typeError

/-- Restriction of a value list to the time points strictly after a threshold,
matching the numpy mask ts > after used by rmosc. -/
def maskGT (after : ℚ) (ts : List ℚ) (v : List ℝ) : List ℝ :=
  ((ts.zip v).filter (fun p => decide (after < p.1))).map Prod.snd

/-- Embeds one iteration of the rmosc loop of src/ns_trcd_analysis/main.py
(lines 303-314).  The scale factor search (scipy minimize_scalar over the given
file and the current shared oscillation array) is the external parameter xfun.
Because scaled_osc aliases osc_smoothed, the scaling and the pre-threshold
zeroing are applied to the shared array itself, and the updated shared array is
what the next iteration starts from. -/
def rmoscStep (xfun : List ℝ → List ℝ → ℝ) (ts : List ℚ) (after : ℚ) (whole_curve : Bool)
    (osc : List ℝ) (orig : List ℝ) : List ℝ :=
  let x := xfun (maskGT after ts orig) (maskGT after ts osc)
  let s := List.zipWith (fun t v => if after < t then x * v else v) ts osc
  if whole_curve then s else List.zipWith (fun t v => if t ≤ after then 0 else v) ts s

/-- The shared oscillation array after the rmosc loop has processed the given
files (in list order, which the command takes as sorted filename order). -/
def rmoscFinal (xfun : List ℝ → List ℝ → ℝ) (ts : List ℚ) (after : ℚ) (whole_curve : Bool) :
    List (List ℝ) → List ℝ → List ℝ
  | [], osc => osc
  | orig :: rest, osc =>
    rmoscFinal xfun ts after whole_curve rest (rmoscStep xfun ts after whole_curve osc orig)

/-- The scale factors found for the files, in processing order; each factor is
computed from the file and the shared oscillation array as it then stands. -/
def rmoscFactors (xfun : List ℝ → List ℝ → ℝ) (ts : List ℚ) (after : ℚ)
    (whole_curve : Bool) : List (List ℝ) → List ℝ → List ℝ
  | [], _ => []
  | orig :: rest, osc =>
    xfun (maskGT after ts orig) (maskGT after ts osc)
      :: rmoscFactors xfun ts after whole_curve rest (rmoscStep xfun ts after whole_curve osc orig)

/-- The per-file oscillation-free outputs of the rmosc loop: each file minus
the shared oscillation array as updated during its own iteration. -/
def rmoscOutputs (xfun : List ℝ → List ℝ → ℝ) (ts : List ℚ) (after : ℚ)
    (whole_curve : Bool) : List (List ℝ) → List ℝ → List (List ℝ)
  | [], _ => []
  | orig :: rest, osc =>
    List.zipWith (fun o v => o - v) orig (rmoscStep xfun ts after whole_curve osc orig)
      :: rmoscOutputs xfun ts after whole_curve rest (rmoscStep xfun ts after whole_curve osc orig)

/-- HDF5 data cube contents as a total map (point, channel, shot, wavelength
index); the trailing pump-state axis of the source has constant size 1 and is
absorbed. -/
def writeShot (load : ℕ → ℤ → ℕ → ℕ → ℝ) (wls : List ℤ) (p : ℕ × ℕ)
    (st : ℕ → ℕ → ℕ → ℕ → ℝ) : ℕ → ℕ → ℕ → ℕ → ℝ :=
  fun pt c sh w =>
    if pt < 20000 ∧ c < 3 ∧ sh = p.1 - 1 ∧ w = p.2 then load p.1 (wls.getD p.2 0) c pt
    else st pt c sh w

/-- The shot/wavelength index pairs iterated by ingest
(src/ns_trcd_analysis/raw2hdf5.py line 40): product(range(1, num_shots + 1),
range(len(wls))). -/
def dirIndices (numShots numWls : ℕ) : List (ℕ × ℕ) :=
  (List.range numShots).flatMap (fun s => (List.range numWls).map (fun w => (s + 1, w)))

/-- The write loop shared by both branches of ingest: for each (shot,
wavelength) pair, the three channel files are loaded and stored at the
corresponding region of the target array. -/
def ingestData (load : ℕ → ℤ → ℕ → ℕ → ℝ) (wls : List ℤ) (numShots : ℕ)
    (init : ℕ → ℕ → ℕ → ℕ → ℝ) : ℕ → ℕ → ℕ → ℕ → ℝ :=
  (dirIndices numShots wls.length).foldl (fun st p => writeShot load wls p st) init

/-- Embeds raw2hdf5.ingest (src/ns_trcd_analysis/raw2hdf5.py lines 9-56): load
models the numpy files on disk (shot directory, wavelength directory, channel,
point); dsInit is the freshly created HDF5 dataset contents and tmpInit the
scratch temporary array (np.empty contents unknown).  With incremental=True each shot is written to
the dataset directly; otherwise the temporary array is filled and then copied
wholesale over the dataset extent.  The wavelengths dataset is written before
the branch and returned alongside. -/
def ingest (load : ℕ → ℤ → ℕ → ℕ → ℝ) (wls : List ℤ) (numShots : ℕ) (incremental : Bool)
    (tmpInit dsInit : ℕ → ℕ → ℕ → ℕ → ℝ) : (ℕ → ℕ → ℕ → ℕ → ℝ) × List ℤ :=
  if incremental then (ingestData load wls numShots dsInit, wls)
  else
    (fun pt c sh w =>
      if pt < 20000 ∧ c < 3 ∧ sh < numShots ∧ w < wls.length then
        ingestData load wls numShots tmpInit pt c sh w
      else dsInit pt c sh w, wls)

/-! ### Helper lemmas about masking -/

theorem maskCurve_map (onset : ℚ) (f : ℚ → ℝ) (ts : List ℚ) :
    maskCurve onset ts (ts.map f) = (maskAfter onset ts).map f := by
  induction ts with
  | nil => rfl
  | cons t ts ih =>
    simp only [maskCurve, maskAfter, List.map_cons, List.zip_cons_cons, List.filter_cons] at *
    by_cases h : onset ≤ t
    · simpa [h] using ih
    · simpa [h] using ih

theorem maskCurve_length (onset : ℚ) : ∀ (ts : List ℚ) (y : List ℝ),
    y.length = ts.length → (maskCurve onset ts y).length = (maskAfter onset ts).length := by
  intro ts
  induction ts with
  | nil => intro y _; rfl
  | cons t ts ih =>
    intro y h
    cases y with
    | nil => simp at h
    | cons v y =>
      simp only [maskCurve, maskAfter, List.zip_cons_cons, List.filter_cons] at *
      by_cases hc : onset ≤ t
      · simpa [hc] using ih y (by simpa using h)
      · simpa [hc] using ih y (by simpa using h)

/-! ### Claim C4 -/

/-- C4: for every time axis, fit onset and positive lifetime, when no
instrument-response curve is supplied the Decay Basis column for the lifetime
is exactly exp(-t/tau) at each time point t of the axis with t at or after the
onset, and it has no entries for time points before the onset (it is the map
of the exponential over exactly the masked axis). -/
theorem C4_basis_column_exp (ts : List ℚ) (onset τ : ℚ) (hτ : 0 < τ) :
    basisColumn none τ onset ts
      = (maskAfter onset ts).map (fun t : ℚ => Real.exp (-(t : ℝ) / (τ : ℝ))) := by
  unfold basisColumn basisColumnRaw decayCurve
  exact maskCurve_map onset _ ts

/-- Witness for C4 at a concrete axis, onset and lifetime. -/
theorem C4_basis_column_exp_witness :
    0 < (1 : ℚ) ∧ basisColumn none 1 1 [0, 1, 2]
      = (maskAfter 1 [0, 1, 2]).map (fun t : ℚ => Real.exp (-(t : ℝ) / ((1 : ℚ) : ℝ))) :=
  ⟨by norm_num, C4_basis_column_exp [0, 1, 2] 1 1 (by norm_num)⟩

/-! ### Claim C5 -/

/-- C5: every invocation of the assemble command fails with a TypeError at the
raw2hdf5.ingest call, because the keyword argument dark_signals_file does not
appear in the ingest parameter list (input_dir, output_file_path, incremental);
the failure happens before the ingest body runs, so no HDF5 output is created or
written and no invocation completes the ingestion. -/
theorem C5_assemble_type_error (input_dir output_file : String) (dark : Option String) :
    assembleCmd input_dir output_file dark = .typeError := by
  rfl

/-! ### Claim C7 -/

/-- C7 counterexample: the claim says every wavelength supplied at the public
interface is matched against the stored labels after scaling by 100; for the
shotslice command with stored labels [85000] and supplied wavelength 850 the
code finds no match while the scaled comparison would find index 0, so the
claim is false as stated. -/
theorem C7_counterexample :
    shotsliceLookup [85000] 850 = none
      ∧ index_for_wavelength [85000] (850 * 100) = some 0
      ∧ shotsliceLookup [85000] 850 ≠ index_for_wavelength [85000] (850 * 100) := by
  decide

/-- C7 amended: wavelength curves are identified by integer labels equal to
100 times the wavelength; the export command scales the user-supplied
fractional wavelength by 100 (with int truncation) before matching, so a
stored label w is found by supplying the wavelength w/100, while the shotslice
command compares the supplied integer against the stored labels directly, so
the user supplies the already-scaled label rather than the wavelength. -/
theorem C7_wavelength_lookup (wls : List ℤ) (w : ℤ) :
    exportLookup wls ((w : ℚ) / 100) = index_for_wavelength wls w
      ∧ shotsliceLookup wls w = index_for_wavelength wls w := by
  refine ⟨?_, rfl⟩
  unfold exportLookup
  have h : ((w : ℚ) / 100) * 100 = (w : ℚ) := by
    rw [div_mul_cancel₀]
    norm_num
  rw [h]
  have hval : pyInt (w : ℚ) = w := by
    unfold pyInt
    by_cases hw : 0 ≤ (w : ℚ)
    · simp [hw, Int.floor_intCast]
    · have h1 : (-(w : ℚ)) = ((-w : ℤ) : ℚ) := by push_cast; ring
      rw [if_neg hw, h1, Int.floor_intCast, neg_neg]
  rw [hval]

/-! ### Helper lemmas about mapExcept and the fit pipeline -/

theorem mapExcept_ok_of {α β ε : Type} {f : α → Except ε β} {g : α → β} :
    ∀ {l : List α}, (∀ a ∈ l, f a = .ok (g a)) → mapExcept f l = .ok (l.map g) := by
  intro l
  induction l with
  | nil => intro _; rfl
  | cons a l ih =>
    intro h
    simp only [mapExcept, h a (by simp), ih (fun a ha => h a (by simp [ha])), List.map_cons]

theorem mapExcept_cons_error {α β ε : Type} {f : α → Except ε β} {a : α} {l : List α}
    {e : ε} (h : f a = .error e) : mapExcept f (a :: l) = .error e := by
  simp only [mapExcept, h]

theorem mapExcept_length {α β ε : Type} {f : α → Except ε β} :
    ∀ {l : List α} {bs : List β}, mapExcept f l = .ok bs → bs.length = l.length := by
  intro l
  induction l with
  | nil => intro bs h; cases h; rfl
  | cons a l ih =>
    intro bs h
    simp only [mapExcept] at h
    cases hfa : f a with
    | error e => rw [hfa] at h; exact Except.noConfusion h
    | ok b =>
      rw [hfa] at h
      cases hml : mapExcept f l with
      | error e => rw [hml] at h; exact Except.noConfusion h
      | ok bs2 =>
        rw [hml] at h
        cases h
        simp [ih hml]

theorem mapExcept_append_ok {α β ε : Type} {f : α → Except ε β} :
    ∀ {l₁ l₂ : List α} {bs : List β}, mapExcept f (l₁ ++ l₂) = .ok bs →
    ∃ bs₁ bs₂, mapExcept f l₁ = .ok bs₁ ∧ mapExcept f l₂ = .ok bs₂ ∧ bs = bs₁ ++ bs₂ := by
  intro l₁
  induction l₁ with
  | nil => intro l₂ bs h; exact ⟨[], bs, rfl, h, rfl⟩
  | cons a l₁ ih =>
    intro l₂ bs h
    simp only [List.cons_append, mapExcept, List.append_eq] at h
    cases hfa : f a with
    | error e => rw [hfa] at h; exact Except.noConfusion h
    | ok b =>
      rw [hfa] at h
      cases hml : mapExcept f (l₁ ++ l₂) with
      | error e => rw [hml] at h; exact Except.noConfusion h
      | ok bs2 =>
        rw [hml] at h
        cases h
        obtain ⟨bs₁, bs₂, h1, h2, rfl⟩ := ih hml
        exact ⟨b :: bs₁, bs₂, by simp [mapExcept, hfa, h1], h2, rfl⟩

theorem buildBasis_ok_of_pos {irf : Option (List ℝ)} {taus : List ℚ} {onset : ℚ}
    {ts : List ℚ} (h : ∀ τ ∈ taus, 0 < τ) :
    buildBasis irf taus onset ts = .ok (basisCols irf taus onset ts) := by
  unfold buildBasis
  rw [if_neg]
  simp only [List.any_eq_true, decide_eq_true_eq, not_exists, not_and]
  exact fun τ hm => not_le.mpr (h τ hm)

theorem basisCols_length (irf : Option (List ℝ)) (taus : List ℚ) (onset : ℚ) (ts : List ℚ) :
    (basisCols irf taus onset ts).length = taus.length := by
  simp [basisCols]

theorem lfits_ok_of {solve : List (List ℝ) → List ℝ → List ℝ} {curves : List (List ℝ)}
    {ts : List ℚ} {onset : ℚ} {taus : List ℚ} {irf : Option (List ℝ)}
    (hτ : ∀ τ ∈ taus, 0 < τ)
    (hk : taus.length ≤ (maskAfter onset ts).length)
    (hlen : ∀ y ∈ curves, y.length = ts.length) :
    lfits solve curves ts onset taus irf
      = .ok (curves.map
          (fun y => solve (basisCols irf taus onset ts) (maskCurve onset ts y))) := by
  unfold lfits
  rw [buildBasis_ok_of_pos hτ]
  refine mapExcept_ok_of (fun y hy => ?_)
  unfold linSolve
  rw [if_neg]
  rw [not_lt, maskCurve_length onset ts y (hlen y hy), basisCols_length]
  exact hk

/-! ### Claim C6 -/

/-- C6: for every ordered collection of wavelength curves, fixed positive
lifetimes and fit onset admitting a well-posed fit, and every permutation p of
the curve indices, the Amplitude Matrix produced by the Local Fit Orchestrator
on the permuted collection is the corresponding row-permutation of the matrix
produced on the original collection: row order always matches input curve
order. -/
theorem C6_local_fit_permutation (solve : List (List ℝ) → List ℝ → List ℝ)
    (curves : List (List ℝ)) (ts : List ℚ) (onset : ℚ) (taus : List ℚ)
    (irf : Option (List ℝ)) (p : List ℕ)
    (hp : p.Perm (List.range curves.length))
    (hτ : ∀ τ ∈ taus, 0 < τ)
    (hk : taus.length ≤ (maskAfter onset ts).length)
    (hlen : ∀ y ∈ curves, y.length = ts.length) :
    lfits solve (permuteRows p curves) ts onset taus irf
      = Except.map (permuteRows p) (lfits solve curves ts onset taus irf) := by
  have hlen2 : ∀ y ∈ permuteRows p curves, y.length = ts.length := by
    intro y hy
    unfold permuteRows at hy
    rcases List.mem_filterMap.mp hy with ⟨i, _, hgi⟩
    exact hlen y (List.getElem?_mem hgi)
  rw [lfits_ok_of hτ hk hlen, lfits_ok_of hτ hk hlen2]
  simp only [Except.map]
  congr 1
  unfold permuteRows
  rw [List.map_filterMap]
  congr 1
  funext i
  rw [List.getElem?_map]

/-- Witness for C6 with two curves and the swap permutation. -/
theorem C6_local_fit_permutation_witness :
    lfits (fun _ y => y) (permuteRows [1, 0] [[(1 : ℝ)], [(2 : ℝ)]]) [0] 0 [1] none
      = Except.map (permuteRows [1, 0])
          (lfits (fun _ y => y) [[(1 : ℝ)], [(2 : ℝ)]] [0] 0 [1] none) :=
  C6_local_fit_permutation (fun _ y => y) [[(1 : ℝ)], [(2 : ℝ)]] [0] 0 [1] none [1, 0]
    (by decide) (by decide) (by decide)
    (by
      intro y hy
      rcases hy with _ | ⟨_, hy⟩
      · rfl
      · rcases hy with _ | ⟨_, hy⟩
        · rfl
        · cases hy)

/-! ### Claim C3 -/

/-- C3: for every fit configuration with positive initial lifetimes, at least
one curve aligned to the time axis, and fewer time points at or after the fit
onset than there are lifetimes, the engine fails with UnderdeterminedFitError
and returns no amplitude result (the Except result carries the error and
nothing else); there is no retry in the pipeline. -/
theorem C3_underdetermined (solve : List (List ℝ) → List ℝ → List ℝ)
    (propose : ℕ → List ℚ → List ℚ) (steps : ℕ) (y : List ℝ) (curves : List (List ℝ))
    (ts : List ℚ) (onset : ℚ) (args : List (ℚ × ℚ × ℚ))
    (hlen : ∀ c ∈ y :: curves, c.length = ts.length)
    (hpos : ∀ a ∈ args, 0 < a.2.1)
    (hud : (maskAfter onset ts).length < args.length) :
    global_fit_cmd solve propose steps (y :: curves) ts onset args
      = .error .underdetermined := by
  have hτ : ∀ τ ∈ (bounded_lifetimes_from_args args).map (fun b => b.lifetime), 0 < τ := by
    intro τ hτ
    simp only [bounded_lifetimes_from_args, List.map_map, List.mem_map] at hτ
    obtain ⟨a, ha, rfl⟩ := hτ
    exact hpos a ha
  have hlf : lfits_for_gfit solve (y :: curves) ts onset (bounded_lifetimes_from_args args)
      = .error .underdetermined := by
    unfold lfits_for_gfit lfits
    rw [buildBasis_ok_of_pos hτ]
    refine mapExcept_cons_error ?_
    unfold linSolve
    rw [if_pos]
    rw [maskCurve_length onset ts y (hlen y (by simp)), basisCols_length]
    simpa [bounded_lifetimes_from_args] using hud
  unfold global_fit_cmd
  rw [hlf]

/-- Witness for C3: one curve, one lifetime, onset past the whole axis. -/
theorem C3_underdetermined_witness :
    global_fit_cmd (fun _ _ => []) (fun _ v => v) 0 [[(1 : ℝ)]] [0] 1
        [((1 : ℚ), (5 : ℚ), (10 : ℚ))] = .error .underdetermined :=
  C3_underdetermined (fun _ _ => []) (fun _ v => v) 0 [(1 : ℝ)] [] [0] 1
    [((1 : ℚ), (5 : ℚ), (10 : ℚ))]
    (by
      intro c hc
      rcases hc with _ | ⟨_, hc⟩
      · rfl
      · cases hc)
    (by decide) (by decide)

/-! ### Helper lemmas about bound clamping and the optimizer trials -/

theorem clamp_mem {lo hi : ℚ} (x : ℚ) (h : lo ≤ hi) :
    lo ≤ clamp lo hi x ∧ clamp lo hi x ≤ hi :=
  ⟨le_max_left _ _, max_le h (min_le_right _ _)⟩

theorem clampVec_length : ∀ (bls : List BoundedLifetime) (xs : List ℚ),
    (clampVec bls xs).length = bls.length := by
  intro bls
  induction bls with
  | nil => intro xs; cases xs <;> rfl
  | cons b bs ih => intro xs; cases xs <;> simp [clampVec, ih]

theorem clampVec_bounds (bls : List BoundedLifetime) :
    ∀ (xs : List ℚ), (∀ b ∈ bls, b.lower ≤ b.upper) → ∀ (j : ℕ), j < bls.length →
    (bls.getD j bl0).lower ≤ (clampVec bls xs).getD j 0
      ∧ (clampVec bls xs).getD j 0 ≤ (bls.getD j bl0).upper := by
  induction bls with
  | nil => intro xs _ j hj; simp at hj
  | cons b bs ih =>
    intro xs hwf j hj
    cases xs with
    | nil =>
      cases j with
      | zero => simpa [clampVec] using clamp_mem b.lifetime (hwf b (by simp))
      | succ j =>
        simpa [clampVec] using
          ih [] (fun b hb => hwf b (by simp [hb])) j (by simpa using hj)
    | cons x xs =>
      cases j with
      | zero => simpa [clampVec] using clamp_mem x (hwf b (by simp))
      | succ j =>
        simpa [clampVec] using
          ih xs (fun b hb => hwf b (by simp [hb])) j (by simpa using hj)

theorem optimizerTrial_length (bls : List BoundedLifetime) (propose : ℕ → List ℚ → List ℚ) :
    ∀ n : ℕ, (optimizerTrial bls propose n).length = bls.length := by
  intro n
  cases n with
  | zero => simp [optimizerTrial]
  | succ n => simp [optimizerTrial, clampVec_length]

theorem optimizerTrial_bounds (bls : List BoundedLifetime) (propose : ℕ → List ℚ → List ℚ)
    (h : ∀ b ∈ bls, b.lower ≤ b.lifetime ∧ b.lifetime ≤ b.upper) :
    ∀ (n j : ℕ), j < bls.length →
    (bls.getD j bl0).lower ≤ (optimizerTrial bls propose n).getD j 0
      ∧ (optimizerTrial bls propose n).getD j 0 ≤ (bls.getD j bl0).upper := by
  intro n
  cases n with
  | zero =>
    intro j hj
    have hj2 : j < (bls.map (fun b => b.lifetime)).length := by simpa using hj
    have hg : (optimizerTrial bls propose 0).getD j 0 = (bls.getD j bl0).lifetime := by
      show (bls.map (fun b => b.lifetime)).getD j 0 = (bls.getD j bl0).lifetime
      rw [List.getD_eq_getElem _ _ hj2, List.getD_eq_getElem _ _ hj, List.getElem_map]
    have hm : bls.getD j bl0 ∈ bls := by
      rw [List.getD_eq_getElem _ _ hj]
      exact List.getElem_mem hj
    rw [hg]
    exact h _ hm
  | succ n =>
    intro j hj
    exact clampVec_bounds bls _ (fun b hb => (h b hb).1.trans (h b hb).2) j hj

/-! ### Inversion lemmas for the fit drivers -/

theorem global_fit_ok_inv {solve : List (List ℝ) → List ℝ → List ℝ}
    {propose : ℕ → List ℚ → List ℚ} {steps : ℕ} {curves : List (List ℝ)} {ts : List ℚ}
    {onset : ℚ} {lfitAmps : List (List ℝ)} {bls : List BoundedLifetime}
    {r : List (List ℝ) × List ℚ}
    (h : global_fit solve propose steps curves ts onset lfitAmps bls = .ok r) :
    r.2 = optimizerTrial bls propose steps
      ∧ lfits solve curves ts onset (optimizerTrial bls propose steps) none = .ok r.1 := by
  unfold global_fit at h
  split at h
  · exact Except.noConfusion h
  · rename_i amps heq
    injection h with h2
    subst h2
    exact ⟨rfl, heq⟩

theorem global_fit_cmd_ok_inv {solve : List (List ℝ) → List ℝ → List ℝ}
    {propose : ℕ → List ℚ → List ℚ} {steps : ℕ} {curves : List (List ℝ)} {ts : List ℚ}
    {fit_after : ℚ} {args : List (ℚ × ℚ × ℚ)} {r : List (List ℝ) × List ℚ}
    (h : global_fit_cmd solve propose steps curves ts fit_after args = .ok r) :
    r.2 = optimizerTrial (bounded_lifetimes_from_args args) propose steps
      ∧ lfits solve curves ts fit_after
          (optimizerTrial (bounded_lifetimes_from_args args) propose steps) none = .ok r.1 := by
  unfold global_fit_cmd at h
  split at h
  · exact Except.noConfusion h
  · exact global_fit_ok_inv h

theorem double_fit_cmd_ok_inv {solve : List (List ℝ) → List ℝ → List ℝ}
    {propose : ℕ → List ℚ → List ℚ} {steps : ℕ} {da_curves cd_curves : List (List ℝ)}
    {ts : List ℚ} {fit_after : ℚ} {args : List (ℚ × ℚ × ℚ)} {r : List (List ℝ) × List ℚ}
    (h : double_fit_cmd solve propose steps da_curves cd_curves ts fit_after args = .ok r) :
    r.2 = optimizerTrial (bounded_lifetimes_from_args args) propose steps
      ∧ lfits solve (da_curves ++ cd_curves) ts fit_after
          (optimizerTrial (bounded_lifetimes_from_args args) propose steps) none = .ok r.1 := by
  unfold double_fit_cmd at h
  split at h
  · exact Except.noConfusion h
  · exact global_fit_ok_inv h

/-! ### Claim C1 -/

/-- C1: for every global fit run, single observable (global_fit command) or
dual observable (double_fit command), with bounded lifetime triples satisfying
lower ≤ initial ≤ upper, every lifetime value in the returned Fit Result lies
within its own lower/upper interval, and there is one returned lifetime per
supplied triple, regardless of how many optimizer iterations were performed. -/
theorem C1_lifetimes_within_bounds (solve : List (List ℝ) → List ℝ → List ℝ)
    (propose : ℕ → List ℚ → List ℚ) (steps : ℕ)
    (curves da_curves cd_curves : List (List ℝ)) (ts : List ℚ) (fit_after : ℚ)
    (args : List (ℚ × ℚ × ℚ)) (amps amps2 : List (List ℝ)) (lts lts2 : List ℚ)
    (hb : ∀ a ∈ args, a.1 ≤ a.2.1 ∧ a.2.1 ≤ a.2.2) :
    (global_fit_cmd solve propose steps curves ts fit_after args = .ok (amps, lts) →
      lts.length = args.length ∧ ∀ j, j < lts.length →
        ((bounded_lifetimes_from_args args).getD j bl0).lower ≤ lts.getD j 0
          ∧ lts.getD j 0 ≤ ((bounded_lifetimes_from_args args).getD j bl0).upper)
    ∧ (double_fit_cmd solve propose steps da_curves cd_curves ts fit_after args
          = .ok (amps2, lts2) →
      lts2.length = args.length ∧ ∀ j, j < lts2.length →
        ((bounded_lifetimes_from_args args).getD j bl0).lower ≤ lts2.getD j 0
          ∧ lts2.getD j 0 ≤ ((bounded_lifetimes_from_args args).getD j bl0).upper) := by
  have hwf : ∀ b ∈ bounded_lifetimes_from_args args,
      b.lower ≤ b.lifetime ∧ b.lifetime ≤ b.upper := by
    intro b hbm
    simp only [bounded_lifetimes_from_args, List.mem_map] at hbm
    obtain ⟨a, ha, rfl⟩ := hbm
    exact hb a ha
  have hblen : (bounded_lifetimes_from_args args).length = args.length := by
    simp [bounded_lifetimes_from_args]
  constructor
  · intro h
    have hinv := (global_fit_cmd_ok_inv h).1
    simp only at hinv
    subst hinv
    refine ⟨by rw [optimizerTrial_length, hblen], fun j hj => ?_⟩
    rw [optimizerTrial_length] at hj
    exact optimizerTrial_bounds _ propose hwf steps j hj
  · intro h
    have hinv := (double_fit_cmd_ok_inv h).1
    simp only at hinv
    subst hinv
    refine ⟨by rw [optimizerTrial_length, hblen], fun j hj => ?_⟩
    rw [optimizerTrial_length] at hj
    exact optimizerTrial_bounds _ propose hwf steps j hj

/-- Witness for C1 from a concrete one-lifetime, zero-iteration run. -/
theorem C1_lifetimes_within_bounds_witness :
    ((1 : ℚ) ≤ 5 ∧ (5 : ℚ) ≤ 10)
      ∧ ([(5 : ℚ)].length = [((1 : ℚ), (5 : ℚ), (10 : ℚ))].length
        ∧ ∀ j, j < [(5 : ℚ)].length →
          ((bounded_lifetimes_from_args [((1 : ℚ), (5 : ℚ), (10 : ℚ))]).getD j bl0).lower
              ≤ [(5 : ℚ)].getD j 0
            ∧ [(5 : ℚ)].getD j 0
              ≤ ((bounded_lifetimes_from_args [((1 : ℚ), (5 : ℚ), (10 : ℚ))]).getD j bl0).upper) :=
  ⟨by decide,
    (C1_lifetimes_within_bounds (fun _ _ => []) (fun _ v => v) 0 [[(1 : ℝ)]] [[(1 : ℝ)]]
        [[(2 : ℝ)]] [0] 0 [((1 : ℚ), (5 : ℚ), (10 : ℚ))] [[]] [[], []] [(5 : ℚ)] [(5 : ℚ)]
        (by decide)).1 rfl⟩

/-! ### Claim C2 -/

/-- C2: for every joint dA and dCD run that returns a Fit Result, the returned
Amplitude Matrix has exactly as many rows as there are dA curves plus dCD
curves, in input order with the dA block first, and splitting it at the dA
block boundary yields exactly the Local Fit Orchestrator output on each
observable alone evaluated at the jointly-fit lifetimes. -/
theorem C2_dual_block_split (solve : List (List ℝ) → List ℝ → List ℝ)
    (propose : ℕ → List ℚ → List ℚ) (steps : ℕ) (da_curves cd_curves : List (List ℝ))
    (ts : List ℚ) (fit_after : ℚ) (args : List (ℚ × ℚ × ℚ)) (amps : List (List ℝ))
    (lts : List ℚ)
    (h : double_fit_cmd solve propose steps da_curves cd_curves ts fit_after args
        = .ok (amps, lts)) :
    amps.length = da_curves.length + cd_curves.length
      ∧ lfits solve da_curves ts fit_after lts none = .ok (amps.take da_curves.length)
      ∧ lfits solve cd_curves ts fit_after lts none = .ok (amps.drop da_curves.length) := by
  obtain ⟨hlts, hcomb⟩ := double_fit_cmd_ok_inv h
  simp only at hlts hcomb
  subst hlts
  unfold lfits at hcomb ⊢
  cases hB : buildBasis none
      (optimizerTrial (bounded_lifetimes_from_args args) propose steps) fit_after ts with
  | error e => rw [hB] at hcomb; exact Except.noConfusion hcomb
  | ok B =>
    rw [hB] at hcomb
    simp only at hcomb
    obtain ⟨bs₁, bs₂, h1, h2, rfl⟩ := mapExcept_append_ok hcomb
    have hl1 : bs₁.length = da_curves.length := mapExcept_length h1
    have hl2 : bs₂.length = cd_curves.length := mapExcept_length h2
    refine ⟨by simp [hl1, hl2], ?_, ?_⟩
    · rw [← hl1, List.take_left]
      exact h1
    · rw [← hl1, List.drop_left]
      exact h2

/-- Witness for C2 from a concrete joint run with one curve per observable. -/
theorem C2_dual_block_split_witness :
    ([[], []] : List (List ℝ)).length = [[(1 : ℝ)]].length + [[(2 : ℝ)]].length
      ∧ lfits (fun _ _ => []) [[(1 : ℝ)]] [0] 0 [(5 : ℚ)] none
          = .ok (([[], []] : List (List ℝ)).take [[(1 : ℝ)]].length)
      ∧ lfits (fun _ _ => []) [[(2 : ℝ)]] [0] 0 [(5 : ℚ)] none
          = .ok (([[], []] : List (List ℝ)).drop [[(1 : ℝ)]].length) :=
  C2_dual_block_split (fun _ _ => []) (fun _ v => v) 0 [[(1 : ℝ)]] [[(2 : ℝ)]] [0] 0
    [((1 : ℚ), (5 : ℚ), (10 : ℚ))] [[], []] [(5 : ℚ)] rfl

/-! ### Helper lemmas about sums of squared residuals -/

theorem ssr_nonneg : ∀ (y f : List ℝ), 0 ≤ ssr y f := by
  intro y
  induction y with
  | nil => intro f; simp [ssr]
  | cons a y ih =>
    intro f
    cases f with
    | nil => simp [ssr]
    | cons b f =>
      have h1 := ih f
      have h2 : (0 : ℝ) ≤ (a - b) ^ 2 := sq_nonneg _
      simp only [ssr, List.zipWith_cons_cons, List.sum_cons] at h1 ⊢
      linarith

theorem ssr_self : ∀ (y : List ℝ), ssr y y = 0 := by
  intro y
  induction y with
  | nil => simp [ssr]
  | cons a y ih =>
    simp only [ssr, List.zipWith_cons_cons, List.sum_cons] at ih ⊢
    simp [ih]

theorem ssr_eq_zero : ∀ (y f : List ℝ), y.length = f.length → ssr y f = 0 → f = y := by
  intro y
  induction y with
  | nil =>
    intro f h _
    cases f with
    | nil => rfl
    | cons b f => simp at h
  | cons a y ih =>
    intro f hlen h0
    cases f with
    | nil => simp at hlen
    | cons b f =>
      simp only [ssr, List.zipWith_cons_cons, List.sum_cons] at h0
      have h1 : (0 : ℝ) ≤ (a - b) ^ 2 := sq_nonneg _
      have h2 : (0 : ℝ) ≤ ssr y f := ssr_nonneg y f
      simp only [ssr] at h2
      have hab : (a - b) ^ 2 = 0 := by linarith
      have hba : b = a := by
        have hz := (pow_eq_zero_iff two_ne_zero).mp hab
        linarith [sub_eq_zero.mp hz]
      have hrest : (List.zipWith (fun a b => (a - b) ^ 2) y f).sum = 0 := by linarith
      rw [hba, ih f (by simpa using hlen) (by simpa [ssr] using hrest)]

theorem lincomb_length (amps : List ℝ) (cols : List (List ℝ)) (n : ℕ) :
    (lincomb amps cols n).length = n := by
  simp [lincomb]

/-! ### Claim C8 -/

/-- C8: for every noise-free masked curve that is itself a linear combination
of the Decay Basis columns, any amplitude vector minimizing the sum of squared
residuals reconstructs the masked curve exactly (least-squares residual zero),
where reconstruction uses the same basis-generation logic (basisCols) as the
fit itself. -/
theorem C8_roundtrip (ts : List ℚ) (onset : ℚ) (taus : List ℚ) (y a c : List ℝ)
    (hmin : ∀ b : List ℝ, b.length = taus.length →
      ssr (maskCurve onset ts y)
          (lincomb a (basisCols none taus onset ts) (maskCurve onset ts y).length)
        ≤ ssr (maskCurve onset ts y)
          (lincomb b (basisCols none taus onset ts) (maskCurve onset ts y).length))
    (hc : c.length = taus.length)
    (hspan : lincomb c (basisCols none taus onset ts) (maskCurve onset ts y).length
        = maskCurve onset ts y) :
    lincomb a (basisCols none taus onset ts) (maskCurve onset ts y).length
        = maskCurve onset ts y
      ∧ ssr (maskCurve onset ts y)
          (lincomb a (basisCols none taus onset ts) (maskCurve onset ts y).length) = 0 := by
  have hle := hmin c hc
  rw [hspan, ssr_self] at hle
  have hge := ssr_nonneg (maskCurve onset ts y)
    (lincomb a (basisCols none taus onset ts) (maskCurve onset ts y).length)
  have hzero : ssr (maskCurve onset ts y)
      (lincomb a (basisCols none taus onset ts) (maskCurve onset ts y).length) = 0 :=
    le_antisymm hle hge
  exact ⟨ssr_eq_zero _ _ (lincomb_length _ _ _).symm hzero, hzero⟩

/-- Witness for C8: a single-lifetime basis on a one-point axis with the curve
equal to twice the basis column; the amplitude vector with entry 2 is a
minimizer because it attains residual zero. -/
theorem C8_roundtrip_witness :
    lincomb [2] (basisCols none [1] 0 [0])
        (maskCurve 0 [0] (lincomb [2] (basisCols none [1] 0 [0]) 1)).length
      = maskCurve 0 [0] (lincomb [2] (basisCols none [1] 0 [0]) 1)
    ∧ ssr (maskCurve 0 [0] (lincomb [2] (basisCols none [1] 0 [0]) 1))
        (lincomb [2] (basisCols none [1] 0 [0])
          (maskCurve 0 [0] (lincomb [2] (basisCols none [1] 0 [0]) 1)).length) = 0 :=
  C8_roundtrip [0] 0 [1] (lincomb [2] (basisCols none [1] 0 [0]) 1) [2] [2]
    (fun b _ => by
      have hrfl : lincomb [2] (basisCols none [1] 0 [0])
          (maskCurve 0 [0] (lincomb [2] (basisCols none [1] 0 [0]) 1)).length
        = maskCurve 0 [0] (lincomb [2] (basisCols none [1] 0 [0]) 1) := rfl
      rw [hrfl, ssr_self]
      exact ssr_nonneg _ _)
    rfl rfl

/-! ### Helper lemmas about the rmosc loop state -/

theorem zipWith_getD (f : ℚ → ℝ → ℝ) (ts : List ℚ) (v : List ℝ) (k : ℕ)
    (h1 : k < ts.length) (h2 : k < v.length) :
    (List.zipWith f ts v).getD k 0 = f (ts.getD k 0) (v.getD k 0) := by
  rw [List.getD_eq_getElem _ _ (by simp [List.length_zipWith]; omega),
    List.getD_eq_getElem _ _ h1, List.getD_eq_getElem _ _ h2, List.getElem_zipWith]

theorem rmoscStep_length (xfun : List ℝ → List ℝ → ℝ) (ts : List ℚ) (after : ℚ)
    (wc : Bool) (osc orig : List ℝ) (h : osc.length = ts.length) :
    (rmoscStep xfun ts after wc osc orig).length = ts.length := by
  unfold rmoscStep
  cases wc <;> simp [List.length_zipWith, h]

theorem rmoscStep_after (xfun : List ℝ → List ℝ → ℝ) (ts : List ℚ) (after : ℚ)
    (wc : Bool) (osc orig : List ℝ) (h : osc.length = ts.length) (k : ℕ)
    (hk : k < ts.length) (ha : after < ts.getD k 0) :
    (rmoscStep xfun ts after wc osc orig).getD k 0
      = xfun (maskGT after ts orig) (maskGT after ts osc) * osc.getD k 0 := by
  unfold rmoscStep
  have hk2 : k < osc.length := by omega
  have hs : (List.zipWith
      (fun t v => if after < t then xfun (maskGT after ts orig) (maskGT after ts osc) * v
        else v) ts osc).getD k 0
      = xfun (maskGT after ts orig) (maskGT after ts osc) * osc.getD k 0 := by
    rw [zipWith_getD _ ts osc k hk hk2, if_pos ha]
  cases wc with
  | true => simpa using hs
  | false =>
    simp only [Bool.false_eq_true, if_false]
    rw [zipWith_getD _ ts _ k hk (by simp [List.length_zipWith]; omega), if_neg (not_le.mpr ha)]
    exact hs

theorem rmoscStep_pre (xfun : List ℝ → List ℝ → ℝ) (ts : List ℚ) (after : ℚ)
    (osc orig : List ℝ) (h : osc.length = ts.length) (k : ℕ)
    (hk : k < ts.length) (hb : ts.getD k 0 ≤ after) :
    (rmoscStep xfun ts after false osc orig).getD k 0 = 0 := by
  unfold rmoscStep
  simp only [Bool.false_eq_true, if_false]
  rw [zipWith_getD _ ts _ k hk (by simp [List.length_zipWith]; omega), if_pos hb]

theorem rmoscFinal_after (xfun : List ℝ → List ℝ → ℝ) (ts : List ℚ) (after : ℚ)
    (wc : Bool) (k : ℕ) (hk : k < ts.length) (ha : after < ts.getD k 0) :
    ∀ (origs : List (List ℝ)) (osc : List ℝ), osc.length = ts.length →
    (rmoscFinal xfun ts after wc origs osc).getD k 0
      = (rmoscFactors xfun ts after wc origs osc).prod * osc.getD k 0 := by
  intro origs
  induction origs with
  | nil => intro osc _; simp [rmoscFinal, rmoscFactors]
  | cons orig rest ih =>
    intro osc h
    simp only [rmoscFinal, rmoscFactors, List.prod_cons]
    rw [ih _ (rmoscStep_length xfun ts after wc osc orig h),
      rmoscStep_after xfun ts after wc osc orig h k hk ha]
    ring

theorem rmoscFinal_pre (xfun : List ℝ → List ℝ → ℝ) (ts : List ℚ) (after : ℚ) (k : ℕ)
    (hk : k < ts.length) (hb : ts.getD k 0 ≤ after) :
    ∀ (origs : List (List ℝ)) (osc : List ℝ), osc.length = ts.length → origs ≠ [] →
    (rmoscFinal xfun ts after false origs osc).getD k 0 = 0 := by
  intro origs
  induction origs with
  | nil => intro osc _ hne; exact absurd rfl hne
  | cons orig rest ih =>
    intro osc h _
    cases rest with
    | nil =>
      show (rmoscStep xfun ts after false osc orig).getD k 0 = 0
      exact rmoscStep_pre xfun ts after osc orig h k hk hb
    | cons o2 r2 =>
      show (rmoscFinal xfun ts after false (o2 :: r2)
        (rmoscStep xfun ts after false osc orig)).getD k 0 = 0
      exact ih _ (rmoscStep_length xfun ts after false osc orig h) (by simp)

/-! ### Claim C9 -/

/-- C9: in the rmosc loop the scaled oscillation curve aliases the shared
smoothed oscillation array, so after processing any file list the after-onset
region of the oscillation curve subtracted from the last file equals the
original smoothed 850nm curve multiplied by the product of all scale factors
found so far (not the last factor alone); with whole_curve unset, the
pre-onset region of the shared array is zeroed from the first file onward; and
the per-file output is not a function of that file and the 850nm curve alone
(two runs differing only in an earlier file give different outputs for the
same later file). -/
theorem C9_rmosc_aliasing :
    (∀ (xfun : List ℝ → List ℝ → ℝ) (ts : List ℚ) (after : ℚ) (wc : Bool)
        (osc0 : List ℝ) (origs : List (List ℝ)) (k : ℕ),
        osc0.length = ts.length → k < ts.length →
        (after < ts.getD k 0 →
          (rmoscFinal xfun ts after wc origs osc0).getD k 0
            = (rmoscFactors xfun ts after wc origs osc0).prod * osc0.getD k 0)
        ∧ (wc = false → origs ≠ [] → ts.getD k 0 ≤ after →
          (rmoscFinal xfun ts after wc origs osc0).getD k 0 = 0))
    ∧ (∃ (xfun : List ℝ → List ℝ → ℝ) (f g w : List ℝ), f ≠ g ∧
        (rmoscOutputs xfun [1] 0 true [f, w] [1]).getD 1 []
          ≠ (rmoscOutputs xfun [1] 0 true [g, w] [1]).getD 1 []) := by
  constructor
  · intro xfun ts after wc osc0 origs k hlen hk
    refine ⟨fun ha => rmoscFinal_after xfun ts after wc k hk ha origs osc0 hlen,
      fun hwc hne hb => ?_⟩
    subst hwc
    exact rmoscFinal_pre xfun ts after k hk hb origs osc0 hlen hne
  · refine ⟨fun o s => o.headD 0 * s.headD 0, [4], [9], [1], ?_, ?_⟩
    · simp only [ne_eq, List.cons.injEq, and_true]
      norm_num
    · have hA : (rmoscOutputs (fun o s : List ℝ => o.headD 0 * s.headD 0) [1] 0 true
          [[4], [1]] [1]).getD 1 [] = [(-15 : ℝ)] := by
        norm_num [rmoscOutputs, rmoscStep, maskGT, List.filter, List.zipWith]
      have hB : (rmoscOutputs (fun o s : List ℝ => o.headD 0 * s.headD 0) [1] 0 true
          [[9], [1]] [1]).getD 1 [] = [(-80 : ℝ)] := by
        norm_num [rmoscOutputs, rmoscStep, maskGT, List.filter, List.zipWith]
      rw [hA, hB]
      simp only [ne_eq, List.cons.injEq, and_true]
      norm_num

/-- Witness for C9: a one-point axis, one processed file, constant factor 2. -/
theorem C9_rmosc_aliasing_witness :
    (0 : ℚ) < 1
      ∧ (rmoscFinal (fun _ _ => 2) [1] 0 true [[(5 : ℝ)]] [(1 : ℝ)]).getD 0 0
          = (rmoscFactors (fun _ _ => 2) [1] 0 true [[(5 : ℝ)]] [(1 : ℝ)]).prod
              * ([(1 : ℝ)]).getD 0 0 :=
  ⟨by norm_num,
    ((C9_rmosc_aliasing.1 (fun _ _ => 2) [1] 0 true [(1 : ℝ)] [[(5 : ℝ)]] 0 rfl
        (by decide)).1 (by decide))⟩

/-! ### Helper lemmas about the ingest write loop -/

theorem foldWrite_not_mem (load : ℕ → ℤ → ℕ → ℕ → ℝ) (wls : List ℤ) :
    ∀ (l : List (ℕ × ℕ)) (init : ℕ → ℕ → ℕ → ℕ → ℝ) (pt c sh w : ℕ),
    (∀ q ∈ l, 1 ≤ q.1) → (sh + 1, w) ∉ l →
    (l.foldl (fun st p => writeShot load wls p st) init) pt c sh w = init pt c sh w := by
  intro l
  induction l with
  | nil => intro init pt c sh w _ _; rfl
  | cons q l ih =>
    intro init pt c sh w h1 hmem
    simp only [List.foldl_cons]
    rw [ih _ pt c sh w (fun q hq => h1 q (by simp [hq]))
      (fun hc => hmem (by simp [hc]))]
    unfold writeShot
    rw [if_neg]
    rintro ⟨_, _, hsh, hw⟩
    have hq1 : 1 ≤ q.1 := h1 q (by simp)
    have hq : q = (sh + 1, w) := by
      obtain ⟨q1, q2⟩ := q
      simp only at hsh hw hq1
      simp only [Prod.mk.injEq]
      omega
    exact hmem (hq ▸ List.mem_cons_self q l)

theorem foldWrite_mem (load : ℕ → ℤ → ℕ → ℕ → ℝ) (wls : List ℤ) :
    ∀ (l : List (ℕ × ℕ)) (init : ℕ → ℕ → ℕ → ℕ → ℝ) (pt c sh w : ℕ),
    (∀ q ∈ l, 1 ≤ q.1) → pt < 20000 → c < 3 → (sh + 1, w) ∈ l →
    (l.foldl (fun st p => writeShot load wls p st) init) pt c sh w
      = load (sh + 1) (wls.getD w 0) c pt := by
  intro l
  induction l with
  | nil => intro init pt c sh w _ _ _ hmem; simp at hmem
  | cons q l ih =>
    intro init pt c sh w h1 hpt hc hmem
    simp only [List.foldl_cons]
    by_cases hml : (sh + 1, w) ∈ l
    · exact ih _ pt c sh w (fun q hq => h1 q (by simp [hq])) hpt hc hml
    · have hq : q = (sh + 1, w) := by
        rcases List.mem_cons.mp hmem with h | h
        · exact h.symm
        · exact absurd h hml
      rw [foldWrite_not_mem load wls l _ pt c sh w (fun q hq => h1 q (by simp [hq])) hml]
      unfold writeShot
      subst hq
      rw [if_pos ⟨hpt, hc, by omega, rfl⟩]

theorem dirIndices_ge_one (n m : ℕ) : ∀ q ∈ dirIndices n m, 1 ≤ q.1 := by
  intro q hq
  simp only [dirIndices, List.mem_flatMap, List.mem_map, List.mem_range] at hq
  obtain ⟨s, _, w, _, rfl⟩ := hq
  simp

theorem mem_dirIndices (n m sh w : ℕ) (hs : sh < n) (hw : w < m) :
    (sh + 1, w) ∈ dirIndices n m := by
  simp only [dirIndices, List.mem_flatMap, List.mem_map, List.mem_range]
  exact ⟨sh, hs, w, hw, rfl⟩

/-! ### Claim C10 -/

/-- C10: for every experiment directory with the expected layout, the data and
wavelengths datasets written by ingest with incremental set are
element-for-element equal (over the dataset extent) to those written by ingest
with incremental unset on the same directory, whatever the initial contents of
the dataset and of the temporary array. -/
theorem C10_ingest_incremental_eq (load : ℕ → ℤ → ℕ → ℕ → ℝ) (wls : List ℤ)
    (numShots : ℕ) (tmpInit dsInit : ℕ → ℕ → ℕ → ℕ → ℝ) (pt c sh w : ℕ)
    (hpt : pt < 20000) (hc : c < 3) (hsh : sh < numShots) (hw : w < wls.length) :
    (ingest load wls numShots true tmpInit dsInit).1 pt c sh w
        = (ingest load wls numShots false tmpInit dsInit).1 pt c sh w
      ∧ (ingest load wls numShots true tmpInit dsInit).2
        = (ingest load wls numShots false tmpInit dsInit).2 := by
  refine ⟨?_, rfl⟩
  show ingestData load wls numShots dsInit pt c sh w
    = if pt < 20000 ∧ c < 3 ∧ sh < numShots ∧ w < wls.length then
        ingestData load wls numShots tmpInit pt c sh w
      else dsInit pt c sh w
  rw [if_pos ⟨hpt, hc, hsh, hw⟩]
  unfold ingestData
  rw [foldWrite_mem load wls _ dsInit pt c sh w (dirIndices_ge_one _ _) hpt hc
      (mem_dirIndices _ _ sh w hsh hw),
    foldWrite_mem load wls _ tmpInit pt c sh w (dirIndices_ge_one _ _) hpt hc
      (mem_dirIndices _ _ sh w hsh hw)]

/-- Witness for C10 at a concrete one-shot, one-wavelength directory with
distinct initial dataset and temporary-array contents. -/
theorem C10_ingest_incremental_eq_witness :
    (ingest (fun s wl ch p => (s : ℝ) + wl + ch + p) [500] 1 true
        (fun _ _ _ _ => 1) (fun _ _ _ _ => 2)).1 0 0 0 0
      = (ingest (fun s wl ch p => (s : ℝ) + wl + ch + p) [500] 1 false
        (fun _ _ _ _ => 1) (fun _ _ _ _ => 2)).1 0 0 0 0
    ∧ (ingest (fun s wl ch p => (s : ℝ) + wl + ch + p) [500] 1 true
        (fun _ _ _ _ => 1) (fun _ _ _ _ => 2)).2
      = (ingest (fun s wl ch p => (s : ℝ) + wl + ch + p) [500] 1 false
        (fun _ _ _ _ => 1) (fun _ _ _ _ => 2)).2 :=
  C10_ingest_incremental_eq (fun s wl ch p => (s : ℝ) + wl + ch + p) [500] 1
    (fun _ _ _ _ => 1) (fun _ _ _ _ => 2) 0 0 0 0
    (by norm_num) (by norm_num) (by norm_num) (by norm_num)

end NsTrcd
